import Mathlib

/-!
Verification of the stricli-kit route-discovery and code-generation engine.

The definitions below are shallow embeddings of the TypeScript sources of the
repository (packages/stricli-codegen: conventions.ts, scanner.ts, config.ts,
watcher.ts, repo.ts, template.ts).  File contents are modelled as `String`
(implemented over `List Char`), file systems as explicit finite structures or
functions `String → Option String`, asynchronous behaviour as explicit event
traces, and fallible code as `Except`/`Option` values.
-/

namespace StricliKit

/-! ## Generic character-list helpers (JS string primitives) -/

/-- JS `String.prototype.endsWith` on character lists:
`l` ends with `suf` iff dropping `l.length - suf.length` leaves `suf`. -/
def endsWithL (l suf : List Char) : Bool :=
  decide (suf.length ≤ l.length) && l.drop (l.length - suf.length) == suf

/-- Removing a suffix of known length (used for `.ts` / `.lazy.ts` stripping). -/
def dropSuffixL (l : List Char) (n : Nat) : List Char :=
  l.take (l.length - n)

/-! ## conventions.ts — file naming constants and pure classification -/

namespace SPECIAL_FILES

/-- `SPECIAL_FILES.ROOT_CONFIG` -/
def ROOT_CONFIG : String := "__root.ts"

/-- `SPECIAL_FILES.ROUTE_CONFIG` -/
def ROUTE_CONFIG : String := "__route.ts"

/-- `SPECIAL_FILES.INDEX` -/
def INDEX : String := "index.ts"

/-- `SPECIAL_FILES.INDEX_LAZY` -/
def INDEX_LAZY : String := "index.lazy.ts"

end SPECIAL_FILES

/-- `FILE_EXTENSIONS.TS` as a character list. -/
def tsExtL : List Char := ".ts".toList

/-- `FILE_EXTENSIONS.LAZY_TS` as a character list. -/
def lazyTsExtL : List Char := ".lazy.ts".toList

/-- `FILE_EXTENSIONS.HANDLER_TS` as a character list. -/
def handlerTsExtL : List Char := ".handler.ts".toList

/-- `isSpecialFile`: exact equality with `__root.ts` or `__route.ts`. -/
def isSpecialFile (filename : String) : Bool :=
  filename == SPECIAL_FILES.ROOT_CONFIG || filename == SPECIAL_FILES.ROUTE_CONFIG

/-- `isLazyFile`: filename ends with `.lazy.ts`. -/
def isLazyFile (filename : String) : Bool :=
  endsWithL filename.toList lazyTsExtL

/-- `isHandlerFile`: filename ends with `.handler.ts`. -/
def isHandlerFile (filename : String) : Bool :=
  endsWithL filename.toList handlerTsExtL

/-- `isTypeScriptFile`: filename ends with `.ts`. -/
def isTypeScriptFile (filename : String) : Bool :=
  endsWithL filename.toList tsExtL

/-- `isCommandFile`: a TypeScript file that is neither special nor a handler. -/
def isCommandFile (filename : String) : Bool :=
  isTypeScriptFile filename && !isSpecialFile filename && !isHandlerFile filename

/-- `removeExtension` on character lists: strip `.lazy.ts`, else `.ts`, else id. -/
def removeExtensionL (l : List Char) : List Char :=
  if endsWithL l lazyTsExtL then dropSuffixL l lazyTsExtL.length
  else if endsWithL l tsExtL then dropSuffixL l tsExtL.length
  else l

/-- `removeExtension` on strings. -/
def removeExtension (filename : String) : String :=
  ⟨removeExtensionL filename.toList⟩

/-- `fileToRouteName`: strip the extension; the `index` name becomes `""`. -/
def fileToRouteName (filename : String) : String :=
  let name := removeExtension filename
  if name == "index" then "" else name

/-- One character step of the global slash-to-underscore replacement. -/
def slashToUnderscore (c : Char) : Char :=
  if c = '/' then '_' else c

/-- One character step of the global hyphen-to-underscore replacement. -/
def hyphenToUnderscore (c : Char) : Char :=
  if c = '-' then '_' else c

/-- `pathToIdentifier` on character lists: remove the extension, replace `/`
then `-` by `_`, and strip the leading underscores. -/
def pathToIdentifierL (l : List Char) : List Char :=
  (((removeExtensionL l).map slashToUnderscore).map hyphenToUnderscore).dropWhile
    (fun c => c == '_')

/-- `pathToIdentifier` on strings. -/
def pathToIdentifier (filePath : String) : String :=
  ⟨pathToIdentifierL filePath.toList⟩

/-- `kebabToCamelCase`: uppercase every lowercase letter following a hyphen,
dropping the hyphen (the source's global hyphen-letter regex replacement). -/
def kebabToCamelCaseL : List Char → List Char
  | [] => []
  | '-' :: c :: rest =>
      if 'a' ≤ c ∧ c ≤ 'z' then c.toUpper :: kebabToCamelCaseL rest
      else '-' :: kebabToCamelCaseL (c :: rest)
  | c :: rest => c :: kebabToCamelCaseL rest

/-- `kebabToCamelCase` on strings. -/
def kebabToCamelCase (s : String) : String :=
  ⟨kebabToCamelCaseL s.toList⟩

/-- `routeToImportName`: `""` maps to `index`, otherwise camel-case the name. -/
def routeToImportName (routeName : String) : String :=
  if routeName == "" then "index" else kebabToCamelCase routeName

/-! ## Injectivity analysis of `pathToIdentifier` -/

/-- The composite per-character replacement applied by `pathToIdentifier`:
slash to underscore, then hyphen to underscore. -/
def sepToUnderscore (c : Char) : Char :=
  hyphenToUnderscore (slashToUnderscore c)

/-! ## JSONC comment stripping (repo.ts `stripJsonComments`, also config.ts) -/

/-- Line-comment removal: the global multiline regex deletes from every
occurrence of two slashes to the end of its line, with no awareness of JSON
string literals.  The boolean flag records being inside a line comment. -/
def stripLineCommentsAux : Bool → List Char → List Char
  | _, [] => []
  | false, '/' :: '/' :: rest => stripLineCommentsAux true rest
  | false, c :: rest => c :: stripLineCommentsAux false rest
  | true, '\n' :: rest => '\n' :: stripLineCommentsAux false rest
  | true, _ :: rest => stripLineCommentsAux true rest

/-- Scan for the closing star-slash of a block comment; `none` when there is
no closing delimiter (in which case the regex does not match at all). -/
def dropToBlockClose : List Char → Option (List Char)
  | [] => none
  | '*' :: '/' :: rest => some rest
  | _ :: rest => dropToBlockClose rest

/-- Block-comment removal with explicit fuel (the fuel is an upper bound on
the input length, so it never runs out). -/
def stripBlockCommentsAux : Nat → List Char → List Char
  | 0, l => l
  | _ + 1, [] => []
  | fuel + 1, '/' :: '*' :: rest =>
      match dropToBlockClose rest with
      | some rest' => stripBlockCommentsAux fuel rest'
      | none => '/' :: '*' :: rest
  | fuel + 1, c :: rest => c :: stripBlockCommentsAux fuel rest

/-- `stripJsonComments`: strip line comments, then block comments, with no
awareness of JSON string-literal context (repo.ts lines 85-87). -/
def stripJsonComments (content : String) : String :=
  let afterLine := stripLineCommentsAux false content.toList
  ⟨stripBlockCommentsAux afterLine.length afterLine⟩

/-- JS whitespace as removed by `String.prototype.trim`. -/
def isJsWhitespace (c : Char) : Bool :=
  c = ' ' || c = '\t' || c = '\n' || c = '\r'

/-- JS `String.prototype.trim` on character lists. -/
def trimL (l : List Char) : List Char :=
  ((l.dropWhile isJsWhitespace).reverse.dropWhile isJsWhitespace).reverse

/-- `isContentEmpty`: blank after stripping comments and whitespace. -/
def isContentEmpty (content : String) : Bool :=
  trimL (stripJsonComments content).toList == []

/-! ## Path helpers (node:path, repo.ts `getPathSegment`) -/

/-- JS `path.split("/")` on character lists. -/
def splitOnSlashL (l : List Char) : List (List Char) :=
  l.foldr
    (fun c acc =>
      match acc with
      | [] => [[c]]
      | head :: tail => if c = '/' then [] :: head :: tail else (c :: head) :: tail)
    [[]]

/-- `getPathSegment`: the last slash-separated segment of a path. -/
def getPathSegment (path : String) : String :=
  ⟨(splitOnSlashL path.toList).getLastD []⟩

/-- Join path segments back with slashes. -/
def joinSegmentsL : List (List Char) → List Char
  | [] => []
  | [x] => x
  | x :: xs => x ++ '/' :: joinSegmentsL xs

/-- Model of node `path.dirname` for the relative paths used here: drop the
last slash-separated segment; a path with no slash has dirname `.`. -/
def dirname (p : String) : String :=
  let parts := splitOnSlashL p.toList
  if parts.length ≤ 1 then "." else ⟨joinSegmentsL parts.dropLast⟩

/-- Model of node `path.join` for the relative paths used here. -/
def pathJoin (a b : String) : String :=
  if a == "" then b else a ++ "/" ++ b

/-! ## template.ts — route-name analysis and stub templates -/

/-- JS word character (regex word class): ASCII alphanumeric or underscore. -/
def isWordChar (c : Char) : Bool :=
  c.isAlphanum || c == '_'

/-- `getRouteName` (template.ts): node `basename(filePath, ".ts")`, then strip
a trailing `.lazy` or `.handler`. -/
def getRouteName (filePath : String) : String :=
  let seg := getPathSegment filePath
  let fileName : List Char :=
    if endsWithL seg.toList tsExtL ∧ seg ≠ ".ts" then dropSuffixL seg.toList 3
    else seg.toList
  let baseName : List Char :=
    if endsWithL fileName ".lazy".toList then dropSuffixL fileName 5
    else if endsWithL fileName ".handler".toList then dropSuffixL fileName 8
    else fileName
  ⟨baseName⟩

/-- `toTitleCase` word-start pass: uppercase every word character that does
not follow another word character.  The flag records whether the previous
character was a word character. -/
def titleCaseAux : Bool → List Char → List Char
  | _, [] => []
  | prevWord, c :: rest =>
      (if isWordChar c && !prevWord then c.toUpper else c) ::
        titleCaseAux (isWordChar c) rest

/-- `toTitleCase` (template.ts): hyphens and underscores become spaces, then
every word start is uppercased. -/
def toTitleCase (s : String) : String :=
  ⟨titleCaseAux false (s.toList.map fun c => if c = '-' ∨ c = '_' then ' ' else c)⟩

/-- `toCamelCase` separator pass: a hyphen or underscore followed by any
non-newline character is replaced by that character uppercased. -/
def camelCaseAux : List Char → List Char
  | [] => []
  | [c] => [c]
  | c :: d :: rest =>
      if c = '-' ∨ c = '_' then
        if d = '\n' then c :: camelCaseAux (d :: rest)
        else d.toUpper :: camelCaseAux rest
      else c :: camelCaseAux (d :: rest)

/-- `toCamelCase` (template.ts): drop separators uppercasing the following
character, then lowercase the first character (unless it is a newline, which
the leading-dot regex does not match). -/
def toCamelCase (s : String) : String :=
  match camelCaseAux s.toList with
  | [] => ""
  | c :: rest => ⟨(if c = '\n' then c else c.toLower) :: rest⟩

/-- `DEFAULT_UTILS_PACKAGE` (template.ts). -/
def DEFAULT_UTILS_PACKAGE : String := "@macalinao/stricli-kit"

/-- Modelled from the spec: the scaffold-template provider for ordinary
command files (`route.hbs`, rendered by Handlebars; the template text is not
in src).  Returns non-empty starter text determined by its parameters. -/
def renderRouteHbs (utilsPackage routeName handlerName description : String) :
    String :=
  "// stub route " ++ routeName ++ "\n// import from " ++ utilsPackage ++
    "\n// handler " ++ handlerName ++ "\n// brief: " ++ description ++ "\n"

/-- Modelled from the spec: the scaffold-template provider for lazy command
files (`lazy-route.hbs`; template text not in src). -/
def renderLazyRouteHbs (utilsPackage routeName description handlerFileName :
    String) : String :=
  "// stub lazy route " ++ routeName ++ "\n// import from " ++ utilsPackage ++
    "\n// loads " ++ handlerFileName ++ "\n// brief: " ++ description ++ "\n"

/-- Modelled from the spec: the scaffold-template provider for companion
handler files (`handler.hbs`; template text not in src). -/
def renderHandlerHbs (routeName : String) : String :=
  "// stub handler for " ++ routeName ++ "\n"

/-- Modelled from the spec: the scaffold-template provider for group
configuration files (`route-group.hbs`; template text not in src). -/
def renderRouteGroupHbs (utilsPackage description : String) : String :=
  "// stub route group\n// import from " ++ utilsPackage ++ "\n// brief: " ++
    description ++ "\n"

/-- Modelled from the spec: the scaffold-template provider for root
configuration files (`root.hbs`; template text not in src). -/
def renderRootHbs (utilsPackage description : String) : String :=
  "// stub root config\n// import from " ++ utilsPackage ++ "\n// brief: " ++
    description ++ "\n"

/-- `generateRouteTemplate` (template.ts) with the default options used by
repo.ts: compute route name, handler name and description, render `route.hbs`. -/
def generateRouteTemplate (filePath : String) : String :=
  let routeName := getRouteName filePath
  let handlerName := toCamelCase routeName ++ "Handler"
  let description :=
    if routeName == "index" then "Default command"
    else toTitleCase routeName ++ " command"
  renderRouteHbs DEFAULT_UTILS_PACKAGE routeName handlerName description

/-- `generateLazyRouteTemplate` (template.ts) with the default options. -/
def generateLazyRouteTemplate (filePath : String) : String :=
  let routeName := getRouteName filePath
  let description :=
    if routeName == "index" then "Default command"
    else toTitleCase routeName ++ " command"
  let handlerFileName := routeName ++ ".handler.ts"
  renderLazyRouteHbs DEFAULT_UTILS_PACKAGE routeName description handlerFileName

/-- `generateHandlerTemplate` (template.ts). -/
def generateHandlerTemplate (filePath : String) : String :=
  renderHandlerHbs (getRouteName filePath)

/-- `generateRouteGroupTemplate` (template.ts) with the default options. -/
def generateRouteGroupTemplate (groupName : String) : String :=
  renderRouteGroupHbs DEFAULT_UTILS_PACKAGE (toTitleCase groupName ++ " commands")

/-- `generateRootTemplate` (template.ts) with the default options. -/
def generateRootTemplate (appName : String) : String :=
  renderRootHbs DEFAULT_UTILS_PACKAGE (toTitleCase appName ++ " - CLI application")

/-! ## repo.ts — empty-file detection and stub population -/

/-- File-system contents: each path maps to the file's text, or `none` when
the file does not exist.  Mirrors the injected `RepoFileSystemOps` for reads
and `node:fs/promises` `writeFile` for writes. -/
def Fs : Type := String → Option String

/-- `writeFile(path, content)`: overwrite one path. -/
def writeFileFs (fs : Fs) (path content : String) : Fs :=
  fun q => if q = path then some content else fs q

/-- `isEmptyFile`: a missing (or unreadable) file counts as empty; otherwise
the file is empty iff its content is blank after stripping comments. -/
def isEmptyFile (fs : Fs) (filePath : String) : Bool :=
  match fs filePath with
  | none => true
  | some content => isContentEmpty content

/-- JS `String.prototype.replace` with a plain-string pattern: replace the
first occurrence only. -/
def replaceFirstL (pat rep : List Char) : List Char → List Char
  | [] => []
  | c :: rest =>
      if pat.isPrefixOf (c :: rest) then rep ++ (c :: rest).drop pat.length
      else c :: replaceFirstL pat rep rest

/-- `getHandlerPath`: the companion path, first `.lazy.ts` occurrence replaced
by `.handler.ts`. -/
def getHandlerPath (lazyFilePath : String) : String :=
  ⟨replaceFirstL ".lazy.ts".toList ".handler.ts".toList lazyFilePath.toList⟩

/-- `getStubTemplateContent`: choose the template from the file's name and
location (root config, group config, lazy command, ordinary command). -/
def getStubTemplateContent (filePath commandsDir : String) : String :=
  let fileName := getPathSegment filePath
  let dirName := getPathSegment (dirname filePath)
  if fileName == SPECIAL_FILES.ROOT_CONFIG then
    let seg := getPathSegment (dirname commandsDir)
    generateRootTemplate (if seg == "" then "app" else seg)
  else if fileName == SPECIAL_FILES.ROUTE_CONFIG then
    generateRouteGroupTemplate dirName
  else if isLazyFile fileName then
    generateLazyRouteTemplate filePath
  else
    generateRouteTemplate filePath

/-- `populateStubFile`: write the stub template to `filePath` (the source does
this unconditionally), and for a lazy command file also write the companion
handler stub, but only when that companion is empty.  The emptiness check uses
the pre-write state, which agrees with the live state at the handler path
because the handler path always differs from the lazy path. -/
def populateStubFile (filePath commandsDir : String) (fs : Fs) : Fs :=
  let fs1 := writeFileFs fs filePath (getStubTemplateContent filePath commandsDir)
  let fileName := getPathSegment filePath
  if isLazyFile fileName then
    let handlerPath := getHandlerPath filePath
    if isEmptyFile fs handlerPath then
      writeFileFs fs1 handlerPath (generateHandlerTemplate filePath)
    else fs1
  else fs1

/-! ## JSON values and `JSON.parse`

Modelled from the spec: the ECMAScript built-in `JSON.parse` (an external
collaborator of the configuration loader), restricted to the constructs the
configuration files use.  Numbers are kept as their lexemes (no floating
point); parsing is a fueled recursive descent over the JSON grammar. -/

/-- A parsed JSON value.  Object fields keep textual order (duplicates allowed;
`JSON.parse` lets the last duplicate win, which lookup implements). -/
inductive JsonVal where
  | jnull : JsonVal
  | jbool (b : Bool) : JsonVal
  | jnum (lexeme : String) : JsonVal
  | jstr (s : String) : JsonVal
  | jarr (elems : List JsonVal) : JsonVal
  | jobj (fields : List (String × JsonVal)) : JsonVal

/-- JSON whitespace (space, tab, line feed, carriage return). -/
def isJsonWs (c : Char) : Bool :=
  c = ' ' || c = '\t' || c = '\n' || c = '\r'

/-- Skip JSON whitespace. -/
def skipWs (l : List Char) : List Char :=
  l.dropWhile isJsonWs

/-- Hex digit value. -/
def hexVal (c : Char) : Option Nat :=
  if '0' ≤ c ∧ c ≤ '9' then some (c.toNat - '0'.toNat)
  else if 'a' ≤ c ∧ c ≤ 'f' then some (c.toNat - 'a'.toNat + 10)
  else if 'A' ≤ c ∧ c ≤ 'F' then some (c.toNat - 'A'.toNat + 10)
  else none

/-- Parse the body of a JSON string literal (after the opening quote),
returning the decoded characters and the remaining input. -/
def parseStringBody : List Char → Except String (List Char × List Char)
  | [] => .error "unterminated string"
  | '"' :: rest => .ok ([], rest)
  | '\\' :: 'u' :: a :: b :: c :: d :: rest => do
      match hexVal a, hexVal b, hexVal c, hexVal d with
      | some ha, some hb, some hc, some hd =>
          let code := ((ha * 16 + hb) * 16 + hc) * 16 + hd
          let (s, r) ← parseStringBody rest
          .ok (Char.ofNat code :: s, r)
      | _, _, _, _ => .error "invalid unicode escape"
  | '\\' :: e :: rest => do
      let c ←
        match e with
        | '"' => Except.ok '"'
        | '\\' => Except.ok '\\'
        | '/' => Except.ok '/'
        | 'b' => Except.ok (Char.ofNat 8)
        | 'f' => Except.ok (Char.ofNat 12)
        | 'n' => Except.ok '\n'
        | 'r' => Except.ok '\r'
        | 't' => Except.ok '\t'
        | _ => Except.error "invalid escape"
      let (s, r) ← parseStringBody rest
      .ok (c :: s, r)
  | c :: rest =>
      if c.toNat < 32 then .error "control character in string"
      else do
        let (s, r) ← parseStringBody rest
        .ok (c :: s, r)

/-- ASCII digit test. -/
def isDigitC (c : Char) : Bool :=
  '0' ≤ c ∧ c ≤ '9'

/-- Lex a JSON number starting at the current position (sign, integer part,
optional fraction, optional exponent), per the JSON grammar. -/
def lexNumber (l : List Char) : Except String (List Char × List Char) :=
  let (sign, l1) :=
    match l with
    | '-' :: rest => (['-'], rest)
    | _ => (([] : List Char), l)
  match l1 with
  | '0' :: rest => afterInt (sign ++ ['0']) rest
  | c :: rest =>
      if isDigitC c ∧ c ≠ '0' then
        let digits := rest.takeWhile isDigitC
        afterInt (sign ++ c :: digits) (rest.dropWhile isDigitC)
      else .error "invalid number"
  | [] => .error "invalid number"
where
  /-- Fraction and exponent parts. -/
  afterInt (acc : List Char) (l : List Char) :
      Except String (List Char × List Char) :=
    let (acc1, l1) :=
      match l with
      | '.' :: d :: rest =>
          if isDigitC d then
            (acc ++ '.' :: d :: rest.takeWhile isDigitC, rest.dropWhile isDigitC)
          else (acc, l)
      | _ => (acc, l)
    let fracOk :=
      match l with
      | '.' :: d :: _ => isDigitC d
      | '.' :: [] => false
      | _ => true
    if ¬ fracOk then .error "invalid number"
    else
      match l1 with
      | e :: rest =>
          if e = 'e' ∨ e = 'E' then
            let (sgn, rest1) :=
              match rest with
              | '+' :: r => (['+'], r)
              | '-' :: r => (['-'], r)
              | _ => (([] : List Char), rest)
            match rest1 with
            | d :: _ =>
                if isDigitC d then
                  .ok (acc1 ++ e :: sgn ++ rest1.takeWhile isDigitC,
                       rest1.dropWhile isDigitC)
                else .error "invalid number"
            | [] => .error "invalid number"
          else .ok (acc1, l1)
      | [] => .ok (acc1, l1)

mutual

/-- Fueled JSON value parser (the fuel bounds the call depth; the initial
fuel is larger than the chain of nested calls can ever be). -/
def parseValue : Nat → List Char → Except String (JsonVal × List Char)
  | 0, _ => .error "out of fuel"
  | fuel + 1, l =>
      match skipWs l with
      | [] => .error "unexpected end of input"
      | 'n' :: 'u' :: 'l' :: 'l' :: rest => .ok (.jnull, rest)
      | 't' :: 'r' :: 'u' :: 'e' :: rest => .ok (.jbool true, rest)
      | 'f' :: 'a' :: 'l' :: 's' :: 'e' :: rest => .ok (.jbool false, rest)
      | '"' :: rest => do
          let (s, r) ← parseStringBody rest
          .ok (.jstr ⟨s⟩, r)
      | '[' :: rest => parseElems fuel rest
      | '\x7b' :: rest => parseMembers fuel rest
      | l' => do
          let (lex, r) ← lexNumber l'
          .ok (.jnum ⟨lex⟩, r)

/-- Fueled parser for an array body (after the opening bracket). -/
def parseElems : Nat → List Char → Except String (JsonVal × List Char)
  | 0, _ => .error "out of fuel"
  | fuel + 1, l =>
      match skipWs l with
      | ']' :: rest => .ok (.jarr [], rest)
      | l' => do
          let (v, r) ← parseValue fuel l'
          parseElemsTail fuel r [v]

/-- Fueled parser for the separator after an array element. -/
def parseElemsTail : Nat → List Char → List JsonVal →
    Except String (JsonVal × List Char)
  | 0, _, _ => .error "out of fuel"
  | fuel + 1, l, acc =>
      match skipWs l with
      | ']' :: rest => .ok (.jarr acc.reverse, rest)
      | ',' :: rest => do
          let (v, r) ← parseValue fuel rest
          parseElemsTail fuel r (v :: acc)
      | _ => .error "expected comma or close bracket"

/-- Fueled parser for an object body (after the opening brace). -/
def parseMembers : Nat → List Char → Except String (JsonVal × List Char)
  | 0, _ => .error "out of fuel"
  | fuel + 1, l =>
      match skipWs l with
      | '\x7d' :: rest => .ok (.jobj [], rest)
      | '"' :: rest => do
          let (k, r1) ← parseStringBody rest
          match skipWs r1 with
          | ':' :: r2 => do
              let (v, r3) ← parseValue fuel r2
              parseMembersTail fuel r3 [(⟨k⟩, v)]
          | _ => .error "expected colon"
      | _ => .error "expected key or close brace"

/-- Fueled parser for the separator after an object member. -/
def parseMembersTail : Nat → List Char → List (String × JsonVal) →
    Except String (JsonVal × List Char)
  | 0, _, _ => .error "out of fuel"
  | fuel + 1, l, acc =>
      match skipWs l with
      | '\x7d' :: rest => .ok (.jobj acc.reverse, rest)
      | ',' :: rest =>
          match skipWs rest with
          | '"' :: r1 => do
              let (k, r2) ← parseStringBody r1
              match skipWs r2 with
              | ':' :: r3 => do
                  let (v, r4) ← parseValue fuel r3
                  parseMembersTail fuel r4 ((⟨k⟩, v) :: acc)
              | _ => .error "expected colon"
          | _ => .error "expected key"
      | _ => .error "expected comma or close brace"

end

/-- `JSON.parse`: parse one value and require only whitespace afterwards. -/
def jsonParse (s : String) : Except String JsonVal := do
  let (v, rest) ← parseValue (2 * s.length + 2) s.toList
  match skipWs rest with
  | [] => .ok v
  | _ => .error "unexpected trailing characters"

/-- `parseJsonc` (repo.ts): strip comments, then `JSON.parse`. -/
def parseJsonc (content : String) : Except String JsonVal :=
  jsonParse (stripJsonComments content)

/-- Whether an `Except` computation succeeded. -/
def exceptOk {ε α : Type} : Except ε α → Bool
  | .ok _ => true
  | .error _ => false

/-- Object-spread field lookup (total; the last duplicate key wins, and
spreading a non-object contributes nothing). -/
def spreadField (v : JsonVal) (key : String) : Option JsonVal :=
  match v with
  | .jobj fields => (fields.reverse.find? (fun kv => kv.1 == key)).map (·.2)
  | _ => none

/-- JS property access on a parsed value: reading a property of `null` throws;
reading an absent property of any other value yields `undefined` (`none`). -/
def jsField (v : JsonVal) (key : String) : Except String (Option JsonVal) :=
  match v with
  | .jnull => .error "TypeError: cannot read properties of null"
  | .jobj fields => .ok ((fields.reverse.find? (fun kv => kv.1 == key)).map (·.2))
  | _ => .ok none

/-- The nullish-coalescing default followed by use as a path segment: an
absent field falls back to the default, a string is used as is, and any other
value makes node `path.join` throw. -/
def asPathString (v : Option JsonVal) (dflt : String) : Except String String :=
  match v with
  | none => .ok dflt
  | some (.jstr s) => .ok s
  | some _ => .error "TypeError: path must be a string"

/-- Read one string-typed configuration field with its default. -/
def configuredString (cfg : JsonVal) (key dflt : String) :
    Except String String := do
  let f ← jsField cfg key
  asPathString f dflt

/-! ## config.ts — `readConfig` with silent fallback -/

/-- The merged configuration (the object-spread result).  Field values stay
parsed JSON values, as the spread copies whatever the file held. -/
structure MergedStricliKitConfig where
  utilsPackage : JsonVal
  commandsDir : JsonVal
  outputDir : JsonVal

/-- `DEFAULT_CONFIG` (config.ts). -/
def DEFAULT_CONFIG : MergedStricliKitConfig where
  utilsPackage := .jstr "@macalinao/stricli-kit"
  commandsDir := .jstr "src/commands"
  outputDir := .jstr "src/generated"

/-- `CONFIG_FILE_NAME` (config.ts). -/
def CONFIG_FILE_NAME : String := ".stricli-kit.jsonc"

/-- `readConfig` (config.ts): missing file yields the defaults; the parse of
an existing file is wrapped in try/catch, any failure yielding the defaults;
a parsed value is object-spread over the defaults. -/
def readConfig (packageRoot : String) (fs : Fs) : MergedStricliKitConfig :=
  let configPath := pathJoin packageRoot CONFIG_FILE_NAME
  match fs configPath with
  | none => DEFAULT_CONFIG
  | some content =>
      match parseJsonc content with
      | .error _ => DEFAULT_CONFIG
      | .ok v =>
          { utilsPackage := (spreadField v "utilsPackage").getD DEFAULT_CONFIG.utilsPackage
            commandsDir := (spreadField v "commandsDir").getD DEFAULT_CONFIG.commandsDir
            outputDir := (spreadField v "outputDir").getD DEFAULT_CONFIG.outputDir }

/-! ## repo.ts — package detection -/

/-- `RepoFileSystemOps` (dependency-injected file-system capability). -/
structure RepoFileSystemOps where
  existsSync : String → Bool
  readdirSync : String → List String
  readFileSync : String → Option String
  isDirectory : String → Bool

/-- `CliPackageInfo` (repo.ts).  The import-prefix field is `importPfx` here. -/
structure CliPackageInfo where
  name : String
  packageDir : String
  commandsDir : String
  outputPath : String
  importPfx : String
deriving DecidableEq

/-- `tryCreatePackageFromConfig` (repo.ts): read `stricli-kit.jsonc` and use
it verbatim when its declared commands directory exists.  `parseJsonc` runs
with NO try/catch here, so a malformed file propagates an error.  (A
non-string import-prefix value is modelled as an error like the other two
fields; every theorem below constrains that field to a string or absent.) -/
def tryCreatePackageFromConfig (packageDir entry : String)
    (fs : RepoFileSystemOps) : Except String (Option CliPackageInfo) :=
  let configPath := pathJoin packageDir "stricli-kit.jsonc"
  if ¬ fs.existsSync configPath then .ok none
  else
    match fs.readFileSync configPath with
    | none => .error "read failure"
    | some configContent => do
        let config ← parseJsonc configContent
        let cd ← configuredString config "commandsDir" "src/commands"
        let commandsDir := pathJoin packageDir cd
        if ¬ fs.existsSync commandsDir then pure none
        else do
          let outv ← configuredString config "output" "src/generated/route-map.ts"
          let pfxv ← configuredString config "importPrefix" "../commands"
          pure (some
            { name := entry
              packageDir := packageDir
              commandsDir := commandsDir
              outputPath := pathJoin packageDir outv
              importPfx := pfxv })

/-- `tryCreatePackageFromConvention` (repo.ts): `src/commands` containing the
root-configuration file, with default paths; cannot fail. -/
def tryCreatePackageFromConvention (packageDir entry : String)
    (fs : RepoFileSystemOps) : Option CliPackageInfo :=
  let commandsDir := pathJoin packageDir "src/commands"
  if ¬ fs.existsSync commandsDir then none
  else if ¬ fs.existsSync (pathJoin commandsDir SPECIAL_FILES.ROOT_CONFIG) then none
  else some
    { name := entry
      packageDir := packageDir
      commandsDir := commandsDir
      outputPath := pathJoin packageDir "src/generated/route-map.ts"
      importPfx := "../commands" }

/-- `tryDetectCliPackage` (repo.ts): explicit configuration first, then the
convention fallback. -/
def tryDetectCliPackage (packageDir entry : String) (fs : RepoFileSystemOps) :
    Except String (Option CliPackageInfo) := do
  match ← tryCreatePackageFromConfig packageDir entry fs with
  | some configPackage => pure (some configPackage)
  | none => pure (tryCreatePackageFromConvention packageDir entry fs)

/-- `findCliPackages` (repo.ts): for every workspace pattern, scan the
pattern's parent directory; every subdirectory that detects as a CLI package
is collected, others are skipped. -/
def findCliPackages (rootDir : String) (workspaceDirs : List String)
    (fs : RepoFileSystemOps) : Except String (List CliPackageInfo) :=
  workspaceDirs.foldlM
    (fun packages pattern => do
      let patternDir := dirname pattern
      let searchDir := pathJoin rootDir patternDir
      if ¬ fs.existsSync searchDir then pure packages
      else
        (fs.readdirSync searchDir).foldlM
          (fun acc entry => do
            let packageDir := pathJoin searchDir entry
            if ¬ fs.isDirectory packageDir then pure acc
            else
              match ← tryDetectCliPackage packageDir entry fs with
              | some pkg => pure (acc ++ [pkg])
              | none => pure acc)
          packages)
    []

/-- A workspace whose only package carries a malformed `stricli-kit.jsonc`. -/
def fsMalformedConfig : RepoFileSystemOps where
  existsSync := fun p =>
    p == "r/packages" || p == "r/packages/foo" ||
      p == "r/packages/foo/stricli-kit.jsonc"
  readdirSync := fun p => if p == "r/packages" then ["foo"] else []
  readFileSync := fun p =>
    if p == "r/packages/foo/stricli-kit.jsonc" then some "\x7b" else none
  isDirectory := fun p => p == "r/packages/foo"

/-- A package directory carrying an explicit configuration declaring
`commandsDir: lib/cmds`, with that directory present. -/
def fsExplicitConfig : RepoFileSystemOps where
  existsSync := fun p =>
    p == "p/stricli-kit.jsonc" || p == "p/lib/cmds"
  readdirSync := fun _ => []
  readFileSync := fun p =>
    if p == "p/stricli-kit.jsonc" then some "\x7b\"commandsDir\": \"lib/cmds\"\x7d"
    else none
  isDirectory := fun _ => false

/-! ## scanner.ts — recursive directory scan into a route tree

The injected file system is modelled as a finite directory tree (the
repository's trees are finite and acyclic; the scanner reads entries in
listing order).  A missing root directory is the `none` case of
`scanCommandsDirectory`, matching the `existsSync` guard in
`scanDirectoryWithFs`. -/

mutual

/-- One file-system entry: a file with content, or a directory. -/
inductive FsEntry where
  | file (content : String) : FsEntry
  | dir (entries : FsEntries) : FsEntry

/-- Ordered directory listing: names paired with entries. -/
inductive FsEntries where
  | nil : FsEntries
  | cons (name : String) (entry : FsEntry) (rest : FsEntries) : FsEntries

end

mutual

/-- `ScannedRoute` (types.ts): route name, relative and full path, directory
flag, and children when a directory. -/
inductive ScannedRoute where
  | mk (name relativePath filePath : String) (isDirectory : Bool)
      (children : Option ScannedRoutes) : ScannedRoute

/-- An ordered list of scanned routes. -/
inductive ScannedRoutes where
  | nil : ScannedRoutes
  | cons (r : ScannedRoute) (rest : ScannedRoutes) : ScannedRoutes

end

/-- The relative path of a child entry (node `relative` of base and the
joined path: segments joined with slashes, empty at the base itself). -/
def childRel (rel name : String) : String :=
  if rel == "" then name else rel ++ "/" ++ name

mutual

/-- `processDirectoryEntry` (scanner.ts): a directory recurses into a group
node; a command file becomes a leaf named by `fileToRouteName`; any other
file is skipped. -/
def processDirectoryEntry (name dirPath rel : String) :
    FsEntry → Option ScannedRoute
  | .file _ =>
      if isCommandFile name then
        some (.mk (fileToRouteName name) (childRel rel name)
          (pathJoin dirPath name) false none)
      else none
  | .dir entries =>
      some (.mk name (childRel rel name) (pathJoin dirPath name) true
        (some (scanEntriesWith entries (pathJoin dirPath name) (childRel rel name))))

/-- `scanDirectoryWithFs` (scanner.ts) over a directory listing: process each
entry in order, keeping the non-null results. -/
def scanEntriesWith : FsEntries → String → String → ScannedRoutes
  | .nil, _, _ => .nil
  | .cons name e rest, dirPath, rel =>
      match processDirectoryEntry name dirPath rel e with
      | some r => .cons r (scanEntriesWith rest dirPath rel)
      | none => scanEntriesWith rest dirPath rel

end

/-- `scanCommandsDirectory` (scanner.ts): a missing root directory yields the
empty route list; otherwise scan the listing with the root as base. -/
def scanCommandsDirectory (commandsDir : String) (root : Option FsEntries) :
    ScannedRoutes :=
  match root with
  | none => .nil
  | some entries => scanEntriesWith entries commandsDir ""

mutual

/-- Depth of one scanned route (a leaf counts 1). -/
def routeDepth : ScannedRoute → Nat
  | .mk _ _ _ _ none => 1
  | .mk _ _ _ _ (some rs) => 1 + routesDepth rs

/-- Depth of a route list (max over its members). -/
def routesDepth : ScannedRoutes → Nat
  | .nil => 0
  | .cons r rest => max (routeDepth r) (routesDepth rest)

end

/-- A directory chain of depth `n`: `n` nested `sub` directories with a
single `index.ts` command file at the bottom. -/
def chainEntries : Nat → FsEntries
  | 0 => .cons "index.ts" (.file "") .nil
  | n + 1 => .cons "sub" (.dir (chainEntries n)) .nil

/-! ## generator.ts — pure code generation (modelled)

`generator.ts` itself is not among the sources; only its test file is.  The
definitions below are modelled from the spec (§4.3: import collection and
rendering, route-map rendering with quoting, application mode, determinism)
and constrained by the expectations of the generator test file.  The group
configuration check is dependency-injected (`checkHasRouteConfig`), exactly
as the tests inject it. -/

/-- Modelled from the spec: `needsQuotes` of the missing generator.ts — a
route-map key needs quoting when it is not a bare JS identifier. -/
def needsQuotes (s : String) : Bool :=
  match s.toList with
  | [] => true
  | c :: rest =>
      !((c.isAlpha || c = '_' || c = '$') &&
        rest.all (fun d => d.isAlphanum || d = '_' || d = '$'))

/-- Modelled from the spec: `quotePropertyName` of the missing generator.ts. -/
def quotePropertyName (s : String) : String :=
  if needsQuotes s then "\"" ++ s ++ "\"" else s

/-- Modelled from the spec: `toImportPath` of the missing generator.ts — the
recognized source suffix is replaced with the module-resolution suffix, the
lazy suffix preserved. -/
def toImportPath (relativePath importPfx : String) : String :=
  importPfx ++ "/" ++ ⟨dropSuffixL relativePath.toList 3⟩ ++ ".js"

/-- Modelled from the spec: `toConfigImportPath` of the missing generator.ts. -/
def toConfigImportPath (relativePath importPfx : String) : String :=
  importPfx ++ "/" ++ relativePath ++ "/__route.js"

/-- `ImportBinding` (spec §3): identifier, module path, configuration flag. -/
structure ImportBinding where
  identifier : String
  path : String
  isConfig : Bool

mutual

/-- Modelled from the spec: `collectRouteImports` of the missing generator.ts
on one route — a leaf yields one route binding; a group yields a
configuration binding (identifier suffixed `_config`) when the injected check
holds, followed by its children's bindings. -/
def collectRouteImports1 (checkCfg : String → Bool) (importPfx : String) :
    ScannedRoute → List ImportBinding
  | .mk _ relativePath _ _ none =>
      [{ identifier := pathToIdentifier relativePath ++ "Route"
         path := toImportPath relativePath importPfx
         isConfig := false }]
  | .mk _ relativePath _ _ (some children) =>
      (if checkCfg relativePath then
        [{ identifier := pathToIdentifier relativePath ++ "_config"
           path := toConfigImportPath relativePath importPfx
           isConfig := true }]
      else []) ++ collectRouteImportsList checkCfg importPfx children

/-- Modelled from the spec: `collectRouteImports` of the missing generator.ts
over a route list, preserving order. -/
def collectRouteImportsList (checkCfg : String → Bool) (importPfx : String) :
    ScannedRoutes → List ImportBinding
  | .nil => []
  | .cons r rest =>
      collectRouteImports1 checkCfg importPfx r ++
        collectRouteImportsList checkCfg importPfx rest

end

/-- Modelled from the spec: `formatImportStatements` of the missing
generator.ts — named route imports and named configuration imports, in
insertion order. -/
def formatImportStatements (imports : List ImportBinding) : List String :=
  imports.map fun b =>
    if b.isConfig then
      "import \x7b config as " ++ b.identifier ++ " \x7d from \"" ++ b.path ++ "\";"
    else
      "import \x7b route as " ++ b.identifier ++ " \x7d from \"" ++ b.path ++ "\";"

mutual

/-- Modelled from the spec: the route-map literal rendering of the missing
generator.ts for one route — a leaf renders `name: identRoute.command`, a
group renders a nested literal splicing its configuration import when
present; keys are quoted exactly when `needsQuotes` holds. -/
def renderRouteEntry (checkCfg : String → Bool) (indent : String) :
    ScannedRoute → String
  | .mk name relativePath _ _ none =>
      indent ++ quotePropertyName name ++ ": " ++
        pathToIdentifier relativePath ++ "Route.command,\n"
  | .mk name relativePath _ _ (some children) =>
      indent ++ quotePropertyName name ++ ": \x7b\n" ++
        (if checkCfg relativePath then
          indent ++ "  ..." ++ pathToIdentifier relativePath ++ "_config,\n"
        else "") ++
        renderRouteEntries checkCfg (indent ++ "  ") children ++
        indent ++ "\x7d,\n"

/-- Modelled from the spec: route-map rendering over a route list, in order. -/
def renderRouteEntries (checkCfg : String → Bool) (indent : String) :
    ScannedRoutes → String
  | .nil => ""
  | .cons r rest =>
      renderRouteEntry checkCfg indent r ++
        renderRouteEntries checkCfg indent rest

end

/-- Modelled from the spec: `generateRouteMapCodePure` of the missing
generator.ts — the nested route-map object literal, a pure function of the
tree and the injected configuration check. -/
def generateRouteMapCodePure (routes : ScannedRoutes)
    (checkCfg : String → Bool) (indent : String) : String :=
  "\x7b\n" ++ renderRouteEntries checkCfg indent routes ++ "\x7d"

/-- Package metadata fed to application mode (name and version from
package.json). -/
structure PackageMeta where
  name : Option String
  version : Option String

/-- Modelled from the spec: `generateRouteMapFileContent` of the missing
generator.ts — header, import declarations, exported route map. -/
def generateRouteMapFileContent (routes : ScannedRoutes)
    (importPfx : String) (hasRoot : Bool) (checkCfg : String → Bool) : String :=
  let imports := collectRouteImportsList checkCfg importPfx routes
  let header := "// AUTO-GENERATED - DO NOT EDIT\n"
  let rootImport :=
    if hasRoot then
      "import \x7b root \x7d from \"" ++ importPfx ++ "/__root.js\";\n"
    else ""
  let typeName := if hasRoot then "AppContext" else "CommandContext"
  header ++ rootImport ++
    String.intercalate "\n" (formatImportStatements imports) ++ "\n" ++
    "export const routes: RouteMap<" ++ typeName ++ "> = " ++
    generateRouteMapCodePure routes checkCfg "  " ++ ";\n"

/-- Modelled from the spec: `generateCreateFileRouteContent` of the missing
generator.ts — the typed route-creation helper module. -/
def generateCreateFileRouteContent (importPfx : String) (hasRoot : Bool)
    (utilsPackage : String) : String :=
  let header := "// AUTO-GENERATED - DO NOT EDIT\n"
  let ctxImport :=
    if hasRoot then
      "import type \x7b AppContext \x7d from \"" ++ importPfx ++ "/__root.js\";\n"
    else ""
  header ++ ctxImport ++
    "import \x7b createFileRouteFactory \x7d from \"" ++ utilsPackage ++ "\";\n" ++
    "export const createFileRoute = createFileRouteFactory();\n" ++
    (if hasRoot then "export type \x7b AppContext \x7d;\n" else "")

/-- Modelled from the spec: `generateAppFileContent` of the missing
generator.ts — the application-bootstrap module using the package's declared
name and version as defaults, overridable by the root configuration. -/
def generateAppFileContent (importPfx : String) (meta : PackageMeta)
    (utilsPackage : String) : String :=
  "// AUTO-GENERATED - DO NOT EDIT\n" ++
    "import \x7b root \x7d from \"" ++ importPfx ++ "/__root.js\";\n" ++
    "import \x7b createAppContextAsync \x7d from \"" ++ utilsPackage ++ "\";\n" ++
    "export const app = buildApplication(routes, \x7b\n" ++
    "  name: root.appConfig.name ?? \"" ++ meta.name.getD "" ++ "\",\n" ++
    "  currentVersion: root.appConfig.version ?? \"" ++ meta.version.getD "" ++
    "\",\n\x7d);\n" ++
    "export const createContext = createAppContextAsync(root);\n"

/-- Modelled from the spec: `buildGeneratedFiles` of the missing generator.ts
— the route-map module and helper module always, the application-bootstrap
module only in application mode. -/
def buildGeneratedFiles (routes : ScannedRoutes) (importPfx : String)
    (hasRoot : Bool) (meta : PackageMeta) (outputDir outputPath : String)
    (utilsPackage : String) (checkCfg : String → Bool) :
    List (String × String) :=
  [(outputPath, generateRouteMapFileContent routes importPfx hasRoot checkCfg),
   (outputDir ++ "/create-file-route.ts",
     generateCreateFileRouteContent importPfx hasRoot utilsPackage)] ++
    (if hasRoot then
      [(outputDir ++ "/app.ts", generateAppFileContent importPfx meta utilsPackage)]
    else [])

/-- Apply a list of file writes in order (later writes win). -/
def applyWrites (fs : Fs) (ws : List (String × String)) : Fs :=
  ws.foldl (fun acc pc => writeFileFs acc pc.1 pc.2) fs

/-- One generation pass: scan the commands directory, build every generated
file, write them to the output file state. -/
def runGeneration (commandsDir : String) (root : Option FsEntries)
    (importPfx : String) (hasRoot : Bool) (meta : PackageMeta)
    (outputDir outputPath utilsPackage : String) (checkCfg : String → Bool)
    (outFs : Fs) : Fs :=
  applyWrites outFs
    (buildGeneratedFiles (scanCommandsDirectory commandsDir root) importPfx
      hasRoot meta outputDir outputPath utilsPackage checkCfg)

/-! ## watcher.ts — debounce coalescing (`handleChange`)

`handleChange` appends the changed path to the pending list, clears any
pending timer and restarts it at `now + debounceMs`; when the timer fires it
captures and clears the pending list and starts one regeneration with the
captured paths.  The simulator below runs the timestamped change events in
order; a pending timer whose deadline is not after the next event fires
before that event is handled (the spacing hypotheses below are strict, so
the tie choice is irrelevant). -/

/-- One change event against the debounce state
`(firings so far, pending paths, pending deadline)`. -/
def debounceStep (debounceMs : Nat)
    (st : List (Nat × List String) × List String × Option Nat)
    (ev : Nat × String) :
    List (Nat × List String) × List String × Option Nat :=
  let (fires, pending, deadline) := st
  match deadline with
  | some dl =>
      if dl ≤ ev.1 then
        (fires ++ [(dl, pending)], [ev.2], some (ev.1 + debounceMs))
      else (fires, pending ++ [ev.2], some (ev.1 + debounceMs))
  | none => (fires, pending ++ [ev.2], some (ev.1 + debounceMs))

/-- Run all change events, then let any remaining timer fire: the returned
list holds every regeneration, as (start time, captured changed paths). -/
def simulateDebounce (debounceMs : Nat) (events : List (Nat × String)) :
    List (Nat × List String) :=
  let (fires, pending, deadline) :=
    events.foldl (debounceStep debounceMs) ([], [], none)
  match deadline with
  | some dl => fires ++ [(dl, pending)]
  | none => fires

/-- Burst condition: starting from an event at time `prev`, every following
event arrives no earlier than its predecessor and strictly less than the
debounce delay after it. -/
def burstFrom (debounceMs : Nat) : Nat → List (Nat × String) → Bool
  | _, [] => true
  | prev, (t, _) :: rest =>
      decide (prev ≤ t) && decide (t < prev + debounceMs) &&
        burstFrom debounceMs t rest

/-- Time of the last event of a burst (the start time given an empty rest). -/
def lastTimeFrom (t : Nat) (evs : List (Nat × String)) : Nat :=
  evs.foldl (fun _ e => e.1) t

/-! ## watcher.ts — lifecycle with `stop` and asynchronous regeneration

The timer callback synchronously captures and clears the pending list and
then starts an asynchronous regeneration which writes the output when it
completes.  `stop` clears any pending timer and closes the subscription; it
does not interact with a regeneration already in flight. -/

/-- Watcher state: subscription flag, pending debounce deadline, pending
changed paths, in-flight regenerations (captured path lists), and the times
of completed output writes. -/
structure WatcherState where
  watching : Bool
  deadline : Option Nat
  pending : List String
  inflight : List (List String)
  writes : List Nat
deriving DecidableEq

/-- Events of one watcher instance. -/
inductive WatcherEvent where
  | change (t : Nat) (path : String) : WatcherEvent
  | timerFire (t : Nat) : WatcherEvent
  | regenComplete (t : Nat) : WatcherEvent
  | stop (t : Nat) : WatcherEvent

/-- One step of the watcher; `none` when the event cannot occur in this
state (no subscription, no timer at that deadline, nothing in flight). -/
def watcherStep (debounceMs : Nat) (s : WatcherState) :
    WatcherEvent → Option WatcherState
  | .change t p =>
      if s.watching then
        some { s with pending := s.pending ++ [p], deadline := some (t + debounceMs) }
      else none
  | .timerFire t =>
      match s.deadline with
      | some dl =>
          if dl = t then
            some
              { s with
                deadline := none
                pending := []
                inflight := s.inflight ++ [s.pending] }
          else none
      | none => none
  | .regenComplete t =>
      match s.inflight with
      | [] => none
      | _ :: rest =>
          some { s with inflight := rest, writes := s.writes ++ [t] }
  | .stop _ =>
      some { s with watching := false, deadline := none }

/-- The state `stop()` leaves behind: unsubscribed, timer cancelled. -/
def stopState (s : WatcherState) : WatcherState :=
  { s with watching := false, deadline := none }

/-- Run a list of watcher events; `none` when the trace is not realizable. -/
def runWatcher (debounceMs : Nat) (s : WatcherState) :
    List WatcherEvent → Option WatcherState
  | [] => some s
  | e :: evs =>
      match watcherStep debounceMs s e with
      | some s' => runWatcher debounceMs s' evs
      | none => none

/-- The watcher state right after `start()`. -/
def watcherInit : WatcherState where
  watching := true
  deadline := none
  pending := []
  inflight := []
  writes := []

/-! ## Theorems -/

theorem endsWithL_append (t suf : List Char) :
    endsWithL (t ++ suf) suf = true := by
  unfold endsWithL
  have hlen : (t ++ suf).length - suf.length = t.length := by
    simp [List.length_append]
  rw [hlen, List.drop_left]
  simp

theorem endsWithL_eq_true_iff (l suf : List Char) :
    endsWithL l suf = true ↔ ∃ t, l = t ++ suf := by
  constructor
  · intro h
    unfold endsWithL at h
    simp only [Bool.and_eq_true, beq_iff_eq, decide_eq_true_eq] at h
    refine ⟨l.take (l.length - suf.length), ?_⟩
    conv_lhs => rw [← List.take_append_drop (l.length - suf.length) l]
    rw [h.2]
  · rintro ⟨t, rfl⟩
    exact endsWithL_append t suf

theorem dropSuffixL_append (t suf : List Char) :
    dropSuffixL (t ++ suf) suf.length = t := by
  unfold dropSuffixL
  have hlen : (t ++ suf).length - suf.length = t.length := by
    simp [List.length_append]
  rw [hlen, List.take_left]

theorem sepToUnderscore_eq (c : Char) (hc : c ≠ '-') :
    sepToUnderscore c = if c = '/' then '_' else c := by
  by_cases h : c = '/' <;>
    simp [sepToUnderscore, slashToUnderscore, hyphenToUnderscore, h, hc]

theorem sepToUnderscore_inj {a b : Char}
    (ha : a ≠ '-' ∧ a ≠ '_') (hb : b ≠ '-' ∧ b ≠ '_') :
    sepToUnderscore a = sepToUnderscore b → a = b := by
  rw [sepToUnderscore_eq a ha.1, sepToUnderscore_eq b hb.1]
  by_cases h1 : a = '/' <;> by_cases h2 : b = '/' <;>
    simp [h1, h2] <;> intro h <;> first
    | exact absurd h.symm hb.2
    | exact absurd h ha.2
    | exact h

theorem map_sepToUnderscore_inj (t : List Char) :
    ∀ u : List Char, (∀ c ∈ t, c ≠ '-' ∧ c ≠ '_') → (∀ c ∈ u, c ≠ '-' ∧ c ≠ '_') →
      t.map sepToUnderscore = u.map sepToUnderscore → t = u := by
  induction t with
  | nil => intro u _ _ h; cases u <;> simp_all
  | cons c cs ih =>
      intro u ht hu h
      cases u with
      | nil => simp_all
      | cons d ds =>
          simp only [List.map_cons, List.cons.injEq] at h
          have hc := ht c (by simp)
          have hd := hu d (by simp)
          have hcd : c = d := sepToUnderscore_inj hc hd h.1
          have hrest : cs = ds :=
            ih ds (fun x hx => ht x (by simp [hx])) (fun x hx => hu x (by simp [hx])) h.2
          rw [hcd, hrest]

theorem dropWhile_map_sep (t : List Char)
    (h0 : ∀ c ∈ t, c ≠ '-' ∧ c ≠ '_') (hh : t.head? ≠ some '/') :
    (t.map sepToUnderscore).dropWhile (fun c => c == '_') = t.map sepToUnderscore := by
  cases t with
  | nil => simp
  | cons c cs =>
      have hc := h0 c (by simp)
      have hslash : c ≠ '/' := by
        intro h
        exact hh (by simp [h])
      have : sepToUnderscore c = c := by
        rw [sepToUnderscore_eq c hc.1]
        simp [hslash]
      simp only [List.map_cons, this, List.dropWhile_cons]
      have : (c == '_') = false := by
        simp [hc.2]
      simp [this]

theorem removeExtensionL_of_ts (t : List Char)
    (hlazy : endsWithL (t ++ tsExtL) lazyTsExtL = false) :
    removeExtensionL (t ++ tsExtL) = t := by
  unfold removeExtensionL
  rw [hlazy]
  simp only [Bool.false_eq_true, if_false, endsWithL_append, if_true]
  exact dropSuffixL_append t tsExtL

theorem pathToIdentifierL_eq_map (t : List Char)
    (hlazy : endsWithL (t ++ tsExtL) lazyTsExtL = false)
    (h0 : ∀ c ∈ t, c ≠ '-' ∧ c ≠ '_') (hh : t.head? ≠ some '/') :
    pathToIdentifierL (t ++ tsExtL) = t.map sepToUnderscore := by
  unfold pathToIdentifierL
  rw [removeExtensionL_of_ts t hlazy, List.map_map]
  have : hyphenToUnderscore ∘ slashToUnderscore = sepToUnderscore := rfl
  rw [this]
  exact dropWhile_map_sep t h0 hh

/-- C2 counterexample: `pathToIdentifier` is not injective over distinct
relative file paths — the hyphenated path `a-b.ts` and the nested path
`a/b.ts` are distinct yet produce the same identifier `a_b`. -/
theorem C2_counterexample :
    pathToIdentifier "a-b.ts" = pathToIdentifier "a/b.ts" ∧
      ("a-b.ts" : String) ≠ "a/b.ts" := by
  constructor
  · rfl
  · decide

/-- C2 (amended): `pathToIdentifier` is injective over relative file paths
that contain no hyphen and no underscore, do not begin with a slash, and end
in `.ts` but not in `.lazy.ts`.  Distinct paths outside this fragment may
collide (hyphen, slash and underscore all map to underscore, the `.lazy.ts`
suffix is conflated with `.ts`, and leading underscores are stripped). -/
theorem C2_pathToIdentifier_injective_amended (p q : String)
    (hpc : ∀ c ∈ p.toList, c ≠ '-' ∧ c ≠ '_')
    (hqc : ∀ c ∈ q.toList, c ≠ '-' ∧ c ≠ '_')
    (hpts : isTypeScriptFile p = true) (hqts : isTypeScriptFile q = true)
    (hplazy : isLazyFile p = false) (hqlazy : isLazyFile q = false)
    (hph : p.toList.head? ≠ some '/') (hqh : q.toList.head? ≠ some '/') :
    pathToIdentifier p = pathToIdentifier q → p = q := by
  intro h
  obtain ⟨t, hteq⟩ := (endsWithL_eq_true_iff p.toList tsExtL).mp hpts
  obtain ⟨u, hueq⟩ := (endsWithL_eq_true_iff q.toList tsExtL).mp hqts
  have hdata : pathToIdentifierL p.toList = pathToIdentifierL q.toList :=
    congrArg String.toList h
  have htc : ∀ c ∈ t, c ≠ '-' ∧ c ≠ '_' := by
    intro c hc
    exact hpc c (by rw [hteq]; exact List.mem_append_left _ hc)
  have huc : ∀ c ∈ u, c ≠ '-' ∧ c ≠ '_' := by
    intro c hc
    exact hqc c (by rw [hueq]; exact List.mem_append_left _ hc)
  have hth : t.head? ≠ some '/' := by
    cases t with
    | nil => simp
    | cons c cs =>
        intro hcontra
        apply hph
        rw [hteq]
        simpa using hcontra
  have huh : u.head? ≠ some '/' := by
    cases u with
    | nil => simp
    | cons c cs =>
        intro hcontra
        apply hqh
        rw [hueq]
        simpa using hcontra
  have hplz : endsWithL (t ++ tsExtL) lazyTsExtL = false := by
    rw [← hteq]; exact hplazy
  have hqlz : endsWithL (u ++ tsExtL) lazyTsExtL = false := by
    rw [← hueq]; exact hqlazy
  rw [hteq, hueq] at hdata
  rw [pathToIdentifierL_eq_map t hplz htc hth,
      pathToIdentifierL_eq_map u hqlz huc huh] at hdata
  have htu : t = u := map_sepToUnderscore_inj t u htc huc hdata
  have : p.toList = q.toList := by rw [hteq, hueq, htu]
  cases p
  cases q
  exact congrArg String.mk (by simpa [String.toList] using this)

/-- Witness for C2 (amended) at the concrete path `pkg/new.ts`, which
satisfies every hypothesis; the equal-identifier premise holds by
computation and the theorem returns the path equality. -/
theorem C2_witness : ("pkg/new.ts" : String) = "pkg/new.ts" :=
  C2_pathToIdentifier_injective_amended "pkg/new.ts" "pkg/new.ts"
    (by decide) (by decide) (by decide) (by decide) (by decide) (by decide)
    (by decide) (by decide) rfl

/-- C1 counterexample: `populateStubFile` overwrites the primary file even
when its stripped content is non-empty.  `cmds/setup-scripts.ts` holds real
content (non-empty after stripping), yet after stub population its content is
no longer the original text. -/
theorem C1_counterexample :
    isContentEmpty "export const x = 1;" = false ∧
      (populateStubFile "cmds/setup-scripts.ts" "cmds"
          (fun q => if q = "cmds/setup-scripts.ts" then some "export const x = 1;"
            else none))
        "cmds/setup-scripts.ts" ≠ some "export const x = 1;" := by
  constructor
  · decide
  · decide

/-- C1 (amended): `populateStubFile(p, d)` always overwrites `p` itself with
the stub template, regardless of `p`'s existing content (its callers, not the
function, restrict it to empty files); the safety check applies only to the
companion: for a lazy command file `p`, the companion handler path (distinct
from `p`) is left unchanged whenever its existing content is non-empty after
stripping comments and whitespace. -/
theorem C1_populateStubFile_amended (fs : Fs) (p d : String)
    (hlazy : isLazyFile (getPathSegment p) = true)
    (hne : getHandlerPath p ≠ p)
    (hnonempty : isEmptyFile fs (getHandlerPath p) = false) :
    (populateStubFile p d fs) (getHandlerPath p) = fs (getHandlerPath p) ∧
      (populateStubFile p d fs) p = some (getStubTemplateContent p d) := by
  unfold populateStubFile
  rw [hlazy]
  simp only [if_true, hnonempty, Bool.false_eq_true, if_false]
  constructor
  · unfold writeFileFs
    simp [hne]
  · unfold writeFileFs
    simp

/-- Witness for C1 (amended): a lazy file whose companion handler already has
real content; the handler is preserved and the lazy file is overwritten. -/
theorem C1_witness :
    (populateStubFile "cmds/new.lazy.ts" "cmds"
          (fun q => if q = "cmds/new.handler.ts" then some "existing handler code"
            else none))
        (getHandlerPath "cmds/new.lazy.ts") =
      (fun q => if q = "cmds/new.handler.ts" then some "existing handler code"
        else none : Fs) (getHandlerPath "cmds/new.lazy.ts") ∧
      (populateStubFile "cmds/new.lazy.ts" "cmds"
          (fun q => if q = "cmds/new.handler.ts" then some "existing handler code"
            else none))
        "cmds/new.lazy.ts" =
        some (getStubTemplateContent "cmds/new.lazy.ts" "cmds") :=
  C1_populateStubFile_amended
    (fun q => if q = "cmds/new.handler.ts" then some "existing handler code" else none)
    "cmds/new.lazy.ts" "cmds" (by decide) (by decide) (by decide)

/-- C9: a path whose file does not exist is judged empty by `isEmptyFile`;
consequently `populateStubFile` on a lazy command file whose companion handler
is absent creates that handler with the generated starter content. -/
theorem C9_absent_handler_created (fs : Fs) (p d : String)
    (hlazy : isLazyFile (getPathSegment p) = true)
    (habsent : fs (getHandlerPath p) = none) :
    isEmptyFile fs (getHandlerPath p) = true ∧
      (populateStubFile p d fs) (getHandlerPath p) =
        some (generateHandlerTemplate p) := by
  have hempty : isEmptyFile fs (getHandlerPath p) = true := by
    unfold isEmptyFile
    rw [habsent]
  refine ⟨hempty, ?_⟩
  unfold populateStubFile
  rw [hlazy]
  simp only [if_true, hempty]
  unfold writeFileFs
  simp

/-- Witness for C9: a file system containing only the empty lazy file
`cmds/new.lazy.ts`; its absent companion handler gets the handler stub. -/
theorem C9_witness :
    isEmptyFile (fun q => if q = "cmds/new.lazy.ts" then some "" else none)
        (getHandlerPath "cmds/new.lazy.ts") = true ∧
      (populateStubFile "cmds/new.lazy.ts" "cmds"
          (fun q => if q = "cmds/new.lazy.ts" then some "" else none))
        (getHandlerPath "cmds/new.lazy.ts") =
        some (generateHandlerTemplate "cmds/new.lazy.ts") :=
  C9_absent_handler_created
    (fun q => if q = "cmds/new.lazy.ts" then some "" else none)
    "cmds/new.lazy.ts" "cmds" (by decide) (by decide)

/-- C10: `stripJsonComments` deletes from every occurrence of two slashes to
the end of the line with no regard for JSON string-literal context, so the
valid, comment-free configuration text whose string value holds a URL parses
under `JSON.parse` but is truncated by the stripper, making `parseJsonc`
fail on it. -/
theorem C10_stripJsonComments_breaks_urls :
    exceptOk (jsonParse "\x7b\"a\": \"http://x\"\x7d") = true ∧
      stripJsonComments "\x7b\"a\": \"http://x\"\x7d" = "\x7b\"a\": \"http:" ∧
      exceptOk (parseJsonc "\x7b\"a\": \"http://x\"\x7d") = false := by
  refine ⟨by decide, by decide, by decide⟩

/-- C3 counterexample: `findCliPackages` raises on malformed configuration
content — the workspace `r` holds one package whose `stricli-kit.jsonc` is
the unparseable text of a lone opening brace, and detection propagates the
parse error rather than falling back. -/
theorem C3_counterexample :
    exceptOk (findCliPackages "r" ["packages/*", "apps/*"] fsMalformedConfig)
      = false := by
  decide

/-- C3 (amended): `readConfig` never raises — a missing configuration file
yields the defaults and unparseable configuration text falls back to the
defaults; but `findCliPackages` does not share this protection: a malformed
per-package `stricli-kit.jsonc` makes it propagate a parse error (see the
counterexample). -/
theorem C3_readConfig_fallback_amended (packageRoot : String) (fs : Fs)
    (h : match fs (pathJoin packageRoot CONFIG_FILE_NAME) with
      | none => True
      | some content => exceptOk (parseJsonc content) = false) :
    readConfig packageRoot fs = DEFAULT_CONFIG := by
  unfold readConfig
  dsimp only
  rcases heq : fs (pathJoin packageRoot CONFIG_FILE_NAME) with _ | content
  · rfl
  · rcases hp : parseJsonc content with e | v
    · dsimp only
      rw [hp]
    · rw [heq] at h
      dsimp only at h
      rw [hp] at h
      simp [exceptOk] at h

/-- Witness for C3 (amended): a package root whose configuration file holds
unparseable text; `readConfig` returns the default configuration. -/
theorem C3_witness :
    readConfig "pkg"
        (fun p => if p = "pkg/.stricli-kit.jsonc" then some "\x7bnot json" else none)
      = DEFAULT_CONFIG :=
  C3_readConfig_fallback_amended "pkg"
    (fun p => if p = "pkg/.stricli-kit.jsonc" then some "\x7bnot json" else none)
    (show exceptOk (parseJsonc "\x7bnot json") = false by decide)

/-- C7: package detection tries the explicit configuration first and uses it
verbatim when its declared commands directory exists; when the explicit route
yields nothing, the convention fallback applies (default commands directory
containing the root-configuration file, default paths); a directory matching
neither is skipped with no error. -/
theorem C7_detection_priority_order (packageDir entry : String)
    (fs : RepoFileSystemOps) :
    (∀ pkg, tryCreatePackageFromConfig packageDir entry fs = .ok (some pkg) →
        tryDetectCliPackage packageDir entry fs = .ok (some pkg)) ∧
      (tryCreatePackageFromConfig packageDir entry fs = .ok none →
        tryDetectCliPackage packageDir entry fs =
          .ok (tryCreatePackageFromConvention packageDir entry fs)) ∧
      (∀ content config cd outv pfxv,
        fs.existsSync (pathJoin packageDir "stricli-kit.jsonc") = true →
        fs.readFileSync (pathJoin packageDir "stricli-kit.jsonc") = some content →
        parseJsonc content = .ok config →
        configuredString config "commandsDir" "src/commands" = .ok cd →
        configuredString config "output" "src/generated/route-map.ts" = .ok outv →
        configuredString config "importPrefix" "../commands" = .ok pfxv →
        fs.existsSync (pathJoin packageDir cd) = true →
        tryCreatePackageFromConfig packageDir entry fs =
          .ok (some
            { name := entry
              packageDir := packageDir
              commandsDir := pathJoin packageDir cd
              outputPath := pathJoin packageDir outv
              importPfx := pfxv })) ∧
      (fs.existsSync (pathJoin packageDir "src/commands") = true →
        fs.existsSync
            (pathJoin (pathJoin packageDir "src/commands")
              SPECIAL_FILES.ROOT_CONFIG) = true →
        tryCreatePackageFromConvention packageDir entry fs =
          some
            { name := entry
              packageDir := packageDir
              commandsDir := pathJoin packageDir "src/commands"
              outputPath := pathJoin packageDir "src/generated/route-map.ts"
              importPfx := "../commands" }) ∧
      (tryCreatePackageFromConfig packageDir entry fs = .ok none →
        tryCreatePackageFromConvention packageDir entry fs = none →
        tryDetectCliPackage packageDir entry fs = .ok none) := by
  refine ⟨?_, ?_, ?_, ?_, ?_⟩
  · intro pkg h
    simp [tryDetectCliPackage, h, Bind.bind, Except.bind, pure, Except.pure]
  · intro h
    simp [tryDetectCliPackage, h, Bind.bind, Except.bind, pure, Except.pure]
  · intro content config cd outv pfxv hex hread hparse hcd hout hpfx hdir
    simp [tryCreatePackageFromConfig, hex, hread, hparse, hcd, hout, hpfx, hdir,
      Bind.bind, Except.bind, pure, Except.pure]
  · intro h1 h2
    simp [tryCreatePackageFromConvention, h1, h2]
  · intro h1 h2
    simp [tryDetectCliPackage, h1, h2, Bind.bind, Except.bind, pure, Except.pure]

/-- Witness for C7: the explicit configuration of `fsExplicitConfig` is used
verbatim for package `p` (commands directory `p/lib/cmds`, with the default
output path and default module prefix). -/
theorem C7_witness :
    tryCreatePackageFromConfig "p" "foo" fsExplicitConfig =
      .ok (some
        { name := "foo"
          packageDir := "p"
          commandsDir := pathJoin "p" "lib/cmds"
          outputPath := pathJoin "p" "src/generated/route-map.ts"
          importPfx := "../commands" }) :=
  (C7_detection_priority_order "p" "foo" fsExplicitConfig).2.2.1
    "\x7b\"commandsDir\": \"lib/cmds\"\x7d"
    (JsonVal.jobj [("commandsDir", JsonVal.jstr "lib/cmds")])
    "lib/cmds" "src/generated/route-map.ts" "../commands"
    (by decide) (by decide) rfl rfl rfl rfl (by decide)

theorem scanChain_depth :
    ∀ (n : Nat) (dirPath rel : String),
      routesDepth (scanEntriesWith (chainEntries n) dirPath rel) = n + 1 := by
  intro n
  induction n with
  | zero => intro dirPath rel; rfl
  | succ n ih =>
      intro dirPath rel
      simp only [chainEntries, scanEntriesWith, processDirectoryEntry,
        routesDepth, routeDepth, ih]
      omega

/-- C8: scanning a missing root directory returns the empty route list
rather than failing; an existing directory with no entries yields an empty
list; and the recursion is unbounded in depth — for every `n` the `n`-fold
nested directory chain scans to a route tree of depth `n + 1`. -/
theorem C8_scanCommandsDirectory_edges (commandsDir : String) :
    scanCommandsDirectory commandsDir none = .nil ∧
      scanCommandsDirectory commandsDir (some .nil) = .nil ∧
      ∀ n, routesDepth (scanCommandsDirectory commandsDir (some (chainEntries n)))
        = n + 1 :=
  ⟨rfl, rfl, fun n => scanChain_depth n commandsDir ""⟩

theorem applyWrites_lookup (ws : List (String × String)) :
    ∀ (fs : Fs) (x : String),
      applyWrites fs ws x =
        match ws.reverse.find? (fun pc => pc.1 == x) with
        | some pc => some pc.2
        | none => fs x := by
  induction ws with
  | nil => intro fs x; rfl
  | cons w ws ih =>
      intro fs x
      have hl : applyWrites fs (w :: ws) = applyWrites (writeFileFs fs w.1 w.2) ws :=
        rfl
      rw [hl, ih]
      have hr : (w :: ws).reverse = ws.reverse ++ [w] := by simp
      rw [hr, List.find?_append]
      cases hfind : ws.reverse.find? (fun pc => pc.1 == x) with
      | some pc => simp
      | none =>
          simp only [Option.none_orElse]
          by_cases hx : w.1 = x
          · simp [List.find?, hx, writeFileFs]
          · have hxx : x ≠ w.1 := fun hc => hx hc.symm
            have hb : (w.1 == x) = false := by simp [hx]
            simp [List.find?, hb, writeFileFs, hxx]

theorem applyWrites_idem (ws : List (String × String)) (fs : Fs) :
    applyWrites (applyWrites fs ws) ws = applyWrites fs ws := by
  funext x
  rw [applyWrites_lookup ws (applyWrites fs ws) x, applyWrites_lookup ws fs x]
  cases hfind : ws.reverse.find? (fun pc => pc.1 == x) with
  | some pc => rfl
  | none => rfl

/-- C6: for a fixed route tree and fixed generator inputs (import prefix,
root-configuration flag, package metadata, configuration check), generation
is a pure function — two calls produce byte-identical text (the model has no
clock or randomness input, matching the source's function signatures) — and
regenerating with no intervening file changes leaves every output file's
content unchanged. -/
theorem C6_generation_deterministic_idempotent (commandsDir : String)
    (root : Option FsEntries) (importPfx : String) (hasRoot : Bool)
    (meta : PackageMeta) (outputDir outputPath utilsPackage : String)
    (checkCfg : String → Bool) (outFs : Fs) :
    generateRouteMapFileContent (scanCommandsDirectory commandsDir root)
        importPfx hasRoot checkCfg =
      generateRouteMapFileContent (scanCommandsDirectory commandsDir root)
        importPfx hasRoot checkCfg ∧
      runGeneration commandsDir root importPfx hasRoot meta outputDir
          outputPath utilsPackage checkCfg
          (runGeneration commandsDir root importPfx hasRoot meta outputDir
            outputPath utilsPackage checkCfg outFs) =
        runGeneration commandsDir root importPfx hasRoot meta outputDir
          outputPath utilsPackage checkCfg outFs := by
  exact ⟨rfl, applyWrites_idem _ outFs⟩

theorem debounce_burst_foldl (d : Nat) :
    ∀ (evs : List (Nat × String)) (prevT : Nat) (pending : List String)
      (fires : List (Nat × List String)),
      burstFrom d prevT evs = true →
      evs.foldl (debounceStep d) (fires, pending, some (prevT + d)) =
        (fires, pending ++ evs.map (·.2), some (lastTimeFrom prevT evs + d)) := by
  intro evs
  induction evs with
  | nil => intro prevT pending fires _; simp [lastTimeFrom]
  | cons e rest ih =>
      rintro prevT pending fires hb
      obtain ⟨t, p⟩ := e
      simp only [burstFrom, Bool.and_eq_true, decide_eq_true_eq] at hb
      obtain ⟨⟨h1, h2⟩, h3⟩ := hb
      have hstep :
          debounceStep d (fires, pending, some (prevT + d)) (t, p) =
            (fires, pending ++ [p], some (t + d)) := by
        unfold debounceStep
        simp [Nat.not_le.mpr h2]
      rw [List.foldl_cons, hstep, ih t (pending ++ [p]) fires h3]
      simp [lastTimeFrom, List.append_assoc]

/-- C5: a burst of `n ≥ 1` change events, each arriving less than the
debounce delay after its predecessor, produces exactly one regeneration; it
starts one debounce delay after the last event of the burst and carries the
full list of changed paths in arrival order (the pending list being captured
and cleared when the timer fires). -/
theorem C5_debounce_coalescing (d t₀ : Nat) (p₀ : String)
    (evs : List (Nat × String)) (hb : burstFrom d t₀ evs = true) :
    simulateDebounce d ((t₀, p₀) :: evs) =
      [(lastTimeFrom t₀ evs + d, p₀ :: evs.map (·.2))] := by
  unfold simulateDebounce
  rw [List.foldl_cons]
  have hstep : debounceStep d ([], [], none) (t₀, p₀) = ([], [p₀], some (t₀ + d)) :=
    rfl
  rw [hstep, debounce_burst_foldl d evs t₀ [p₀] [] hb]
  rfl

/-- Witness for C5, the spec's scenario: debounce 100, events at t = 0, 30,
60 — one regeneration at t = 160 carrying all three paths. -/
theorem C5_witness :
    simulateDebounce 100 [(0, "a"), (30, "b"), (60, "c")] =
      [(160, ["a", "b", "c"])] :=
  C5_debounce_coalescing 100 0 "a" [(30, "b"), (60, "c")] (by decide)

/-- C4 counterexample: a write after `stop()` returns.  The timer fires at
t = 100 and starts an asynchronous regeneration; `stop()` runs at t = 101;
the regeneration completes and writes the output at t = 102 — after `stop()`
returned — because `stop` cancels only the pending timer, not a regeneration
already in flight. -/
theorem C4_counterexample :
    runWatcher 100 watcherInit
        [.change 0 "a", .timerFire 100, .stop 101, .regenComplete 102] =
      some
        { watching := false
          deadline := none
          pending := []
          inflight := []
          writes := [102] } := by
  rfl

/-- C4 (amended): `stop()` cancels any pending debounce timer and is
idempotent, and after it returns no new regeneration can ever start: from the
stopped state, if no regeneration was in flight at the moment of the call, no
trace of further events adds an output write.  A regeneration whose timer
fired before `stop()` is not cancelled, however, and may still write after
`stop()` returns (see the counterexample). -/
theorem C4_stop_amended (d : Nat) (s : WatcherState) (t : Nat)
    (hq : s.inflight = []) :
    watcherStep d s (.stop t) = some (stopState s) ∧
      (∀ t', watcherStep d (stopState s) (.stop t') = some (stopState s)) ∧
      (∀ evs s', runWatcher d (stopState s) evs = some s' →
        s'.writes = s.writes) := by
  refine ⟨rfl, fun t' => rfl, ?_⟩
  have key : ∀ (evs : List WatcherEvent) (u : WatcherState),
      u.watching = false → u.deadline = none → u.inflight = [] →
      ∀ u', runWatcher d u evs = some u' → u'.writes = u.writes := by
    intro evs
    induction evs with
    | nil =>
        intro u _ _ _ u' hr
        cases hr
        rfl
    | cons e evs ih =>
        intro u h1 h2 h3 u' hr
        cases e with
        | change t p =>
            unfold runWatcher watcherStep at hr
            rw [h1] at hr
            simp at hr
        | timerFire t =>
            unfold runWatcher watcherStep at hr
            rw [h2] at hr
            simp at hr
        | regenComplete t =>
            unfold runWatcher watcherStep at hr
            rw [h3] at hr
            simp at hr
        | stop t =>
            unfold runWatcher watcherStep at hr
            dsimp only at hr
            exact ih { u with watching := false, deadline := none } rfl rfl h3 u' hr
  intro evs s' hr
  exact key evs (stopState s) rfl rfl hq s' hr

/-- Witness for C4 (amended): a watching state with a pending timer and no
regeneration in flight; stopping cancels the timer, stopping again changes
nothing, and the concrete post-stop trace of a stop and a (rejected) change
leaves the write log unchanged. -/
theorem C4_witness :
    watcherStep 100 ⟨true, some 100, ["a"], [], []⟩ (.stop 50) =
        some (stopState ⟨true, some 100, ["a"], [], []⟩) ∧
      (∀ t', watcherStep 100 (stopState ⟨true, some 100, ["a"], [], []⟩) (.stop t') =
        some (stopState ⟨true, some 100, ["a"], [], []⟩)) ∧
      (∀ evs s', runWatcher 100 (stopState ⟨true, some 100, ["a"], [], []⟩) evs =
        some s' → s'.writes = []) :=
  C4_stop_amended 100 ⟨true, some 100, ["a"], [], []⟩ 50 rfl

end StricliKit
